import Mathlib

/-!
Shallow embedding of the microagent core (current revision): the OP_RETURN
script codec, coin selection, transaction build, the send-bsv skill text
scanner, and the polling-loop state machine. Every definition is translated
from the JavaScript source; doc comments name the source function embedded.
-/

/-- Byte strings are modelled as lists of byte values. -/
abbrev Bytes := List Nat

/-! ## ScriptCodec: encoding (bsv Script.writeBuffer, as used by sendOpReturn) -/

/-- Models bsv Script.writeBuffer, the minimal push encoding used by
sendOpReturn for each data string. An empty buffer becomes OP_0 (0x00); up to
75 bytes a direct length byte; up to 255 bytes OP_PUSHDATA1 (0x4c); up to
65535 bytes OP_PUSHDATA2 (0x4d, little-endian length); larger buffers
OP_PUSHDATA4 (0x4e, little-endian length). -/
def pushData (b : Bytes) : Bytes :=
  if b.length = 0 then [0]
  else if b.length ≤ 75 then b.length :: b
  else if b.length ≤ 255 then 76 :: b.length :: b
  else if b.length ≤ 65535 then 77 :: (b.length % 256) :: (b.length / 256) :: b
  else 78 :: (b.length % 256) :: (b.length / 256 % 256) :: (b.length / 65536 % 256)
         :: (b.length / 16777216 % 256) :: b

/-- One push per field, concatenated, in order. -/
def pushAll : List Bytes → Bytes
  | [] => []
  | f :: fs => pushData f ++ pushAll fs

/-- Models the script built by sendOpReturn: OP_FALSE (0x00), OP_RETURN (0x6a),
then one minimal push per data string. -/
def encodeScript (fields : List Bytes) : Bytes := 0 :: 106 :: pushAll fields

/-! ## ScriptCodec: decoding (parseOpReturn) -/

/-- Models the first while loop of parseOpReturn: advance past the first
OP_RETURN byte (0x6a); if there is none the remainder is empty. -/
def afterOpReturn : Bytes → Bytes
  | [] => []
  | b :: r => if b = 106 then r else afterOpReturn r

/-- Models the second while loop of parseOpReturn, which repeatedly reads a
length byte (0x4c OP_PUSHDATA1 and 0x4d OP_PUSHDATA2 switch to extended
lengths) and slices that many following bytes as one part. A declared length
running past the end stops the loop, keeping the parts read so far. A 0x4d
header with fewer than two following bytes models Buffer.readUInt16LE throwing
(result none, the whole output is skipped by the caller catch). A trailing
0x4c header reads an undefined length byte; the JavaScript then slices an
empty buffer, appending one empty part. The fuel argument is the byte count
of the buffer: every iteration consumes at least one byte, so this fuel is
never exhausted before the buffer is. -/
def partsLoopF : Nat → Bytes → Option (List Bytes)
  | _, [] => some []
  | 0, _ :: _ => some []
  | fuel + 1, len :: rest =>
    if len = 0 then partsLoopF fuel rest
    else if len = 76 then
      match rest with
      | [] => some [[]]
      | l :: r2 =>
        if l > r2.length then some []
        else (partsLoopF fuel (r2.drop l)).map (fun tl => r2.take l :: tl)
    else if len = 77 then
      match rest with
      | a :: b :: r2 =>
        if a + 256 * b > r2.length then some []
        else (partsLoopF fuel (r2.drop (a + 256 * b))).map
               (fun tl => r2.take (a + 256 * b) :: tl)
      | _ => none
    else
      if len > rest.length then some []
      else (partsLoopF fuel (rest.drop len)).map (fun tl => rest.take len :: tl)

/-- The push-data scanning part of parseOpReturn on one output script:
skip to past OP_RETURN, then read the parts. -/
def decodeScript (script : Bytes) : Option (List Bytes) :=
  partsLoopF (afterOpReturn script).length (afterOpReturn script)

/-- Models the prefix test of parseOpReturn on one output: the decoded parts
qualify only when nonempty and the first part equals the protocol prefix
exactly; the result is the remaining parts. A thrown decode (none) or a
non-matching prefix yields none for this output. -/
def decodeOutput (pfx : Bytes) (script : Bytes) : Option (List Bytes) :=
  match decodeScript script with
  | none => none
  | some [] => none
  | some (p0 :: restP) => if p0 = pfx then some restP else none

/-- One transaction output as parseOpReturn sees it: whether the asm string
contains OP_RETURN, and the script bytes when a hex field is present. -/
structure VOut where
  asmHasOpReturn : Bool
  hexScript : Option Bytes
deriving DecidableEq

/-- Models parseOpReturn over the outputs of a transaction: the first output
that passes the asm gate, has script bytes, and decodes to a prefix-matching
part sequence wins; otherwise the scan continues and the result is none. -/
def parseOpReturn (pfx : Bytes) : List VOut → Option (List Bytes)
  | [] => none
  | o :: rest =>
    if o.asmHasOpReturn then
      match o.hexScript with
      | some s =>
        match decodeOutput pfx s with
        | some parts => some parts
        | none => parseOpReturn pfx rest
      | none => parseOpReturn pfx rest
    else parseOpReturn pfx rest

/-! ## CoinSelector (the input-gathering loop of sendOpReturn and sendBsv) -/

/-- Models the input loop body: each UTXO value is added in gateway order and
the loop breaks as soon as the accumulated value exceeds the threshold. -/
def selectGo (threshold : Nat) : List Nat → Nat → List Nat
  | [], _ => []
  | u :: rest, acc =>
    if acc + u > threshold then [u]
    else u :: selectGo threshold rest (acc + u)

/-- Models the UTXO selection of sendOpReturn and sendBsv: accumulate values
in list order, stopping once the running sum exceeds the threshold
(target plus the 5000 sat safety buffer) or the list ends. -/
def selectUtxos (utxos : List Nat) (threshold : Nat) : List Nat :=
  selectGo threshold utxos 0

/-! ## TransactionBuilder (the pure part of sendOpReturn and sendBsv) -/

/-- Models Math.ceil(estSize * feeRate) with the fee rate given as the
nonnegative rational feeNum / feeDen. -/
def estFee (estSize : Nat) (feeNum feeDen : Nat) : Nat :=
  (estSize * feeNum + feeDen - 1) / feeDen

/-- The built transaction: selected input values, the optional payment output
value, the change output value, the fee, and how many inputs were signed. -/
structure BuiltTx where
  inputs : List Nat
  paymentOut : Option Nat
  changeOut : Int
  fee : Nat
  sigCount : Nat
deriving DecidableEq

/-- How many signatures a build produced: a failed build signed nothing,
because sendOpReturn and sendBsv throw before their signing loop. -/
def sigsOf : Except String BuiltTx → Nat
  | .error _ => 0
  | .ok b => b.sigCount

/-- Models the build part of sendOpReturn: send amount is 1000 plus extras
when a recipient is given, inputs are selected with threshold sendAmount +
5000, the estimated size is 150 + total data length + 34 per non-data output,
and the build throws Insufficient funds before signing when the change would
be negative. On success every selected input is signed. -/
def sendOpReturnTx (utxos : List Nat) (dataLens : List Nat) (recipient : Bool)
    (extraSats : Nat) (feeNum feeDen : Nat) : Except String BuiltTx :=
  if utxos.isEmpty then .error "No UTXOs"
  else
    let sendAmount := if recipient then 1000 + extraSats else 0
    let sel := selectUtxos utxos (sendAmount + 5000)
    let inputSats := sel.sum
    let estSize := 150 + dataLens.sum + 34 * (if recipient then 2 else 1)
    let fee := estFee estSize feeNum feeDen
    let change : Int := (inputSats : Int) - sendAmount - fee
    if change < 0 then .error "Insufficient funds"
    else .ok { inputs := sel
             , paymentOut := if recipient then some sendAmount else none
             , changeOut := change
             , fee := fee
             , sigCount := sel.length }

/-- Models the build part of sendBsv: one payment output of amountSats,
estimated size 150 + 34 * 2, threshold amountSats + 5000, throwing
Insufficient funds before signing when the change would be negative. -/
def sendBsvTx (utxos : List Nat) (amountSats : Nat) (feeNum feeDen : Nat) :
    Except String BuiltTx :=
  if utxos.isEmpty then .error "No UTXOs"
  else
    let sel := selectUtxos utxos (amountSats + 5000)
    let inputSats := sel.sum
    let fee := estFee (150 + 34 * 2) feeNum feeDen
    let change : Int := (inputSats : Int) - amountSats - fee
    if change < 0 then .error "Insufficient funds"
    else .ok { inputs := sel
             , paymentOut := some amountSats
             , changeOut := change
             , fee := fee
             , sigCount := sel.length }

/-! ## ActionExtractor: the send-bsv skill pattern
The skill pattern is the regular expression
[SEND \s+ digits \s+ base58-address] where the address is a literal 1
followed by 25 to 34 characters from the base58 class. The scanner below is
the deterministic reading of that pattern: every quantified piece is followed
by a character outside its class, so greedy matching needs no backtracking. -/

/-- JavaScript regular-expression whitespace class membership. -/
def isJsSpace (c : Char) : Bool :=
  decide (c.toNat ∈ [32, 9, 10, 11, 12, 13, 160, 5760, 8232, 8233, 8239, 8287, 12288, 65279]) ||
  decide (8192 ≤ c.toNat ∧ c.toNat ≤ 8202)

/-- The base58 character class of the send-bsv address pattern. -/
def isB58 (c : Char) : Bool :=
  decide (('a' ≤ c ∧ c ≤ 'k') ∨ ('m' ≤ c ∧ c ≤ 'z') ∨ ('A' ≤ c ∧ c ≤ 'H') ∨
          ('J' ≤ c ∧ c ≤ 'N') ∨ ('P' ≤ c ∧ c ≤ 'Z') ∨ ('1' ≤ c ∧ c ≤ '9'))

/-- Models parseInt on a digit run. -/
def digitsToNat (ds : List Char) : Nat :=
  ds.foldl (fun a c => 10 * a + (c.toNat - 48)) 0

/-- Try to match the send-bsv pattern at the head of the text. On success
returns the amount, the address characters (with the leading 1), and the
total number of characters the match spans. -/
def matchSendAt : List Char → Option (Nat × List Char × Nat)
  | '[' :: 'S' :: 'E' :: 'N' :: 'D' :: r =>
    let ws1 := r.takeWhile isJsSpace
    let r1 := r.dropWhile isJsSpace
    if ws1.isEmpty then none
    else
      let ds := r1.takeWhile Char.isDigit
      let r2 := r1.dropWhile Char.isDigit
      if ds.isEmpty then none
      else
        let ws2 := r2.takeWhile isJsSpace
        let r3 := r2.dropWhile isJsSpace
        if ws2.isEmpty then none
        else
          match r3 with
          | '1' :: r4 =>
            let run := r4.takeWhile isB58
            let r5 := r4.dropWhile isB58
            if 25 ≤ run.length ∧ run.length ≤ 34 then
              match r5 with
              | ']' :: _ =>
                some (digitsToNat ds, '1' :: run,
                      5 + ws1.length + ds.length + ws2.length + 1 + run.length + 1)
              | _ => none
            else none
          | _ => none
  | _ => none

/-- Models the global exec loop of the skill parse: find non-overlapping
matches left to right, resuming after each match. The fuel is the text
length; every step consumes at least one character, so it never runs out. -/
def scanSendsF : Nat → List Char → List (Nat × List Char)
  | _, [] => []
  | 0, _ :: _ => []
  | fuel + 1, c :: rest =>
    match matchSendAt (c :: rest) with
    | some (a, addr, n) => (a, addr) :: scanSendsF fuel ((c :: rest).drop n)
    | none => scanSendsF fuel rest

/-- All pattern matches of the send-bsv skill in a text, in order. -/
def scanSends (l : List Char) : List (Nat × List Char) := scanSendsF l.length l

/-- Models the parse of the current send-bsv skill: every pattern match whose
amount lies in the inclusive range 100 to 10000 becomes an action;
out-of-range matches are dropped silently. -/
def parseSend (l : List Char) : List (Nat × List Char) :=
  (scanSends l).filter (fun m => decide (100 ≤ m.1 ∧ m.1 ≤ 10000))

/-- Models text.replace(pattern, empty string): remove every matched span,
keeping everything else. Fuel as in the scanner. -/
def stripSendsF : Nat → List Char → List Char
  | _, [] => []
  | 0, l => l
  | fuel + 1, c :: rest =>
    match matchSendAt (c :: rest) with
    | some (_, _, n) => stripSendsF fuel ((c :: rest).drop n)
    | none => c :: stripSendsF fuel rest

/-- Models replace of two-or-more whitespace runs by one space: a lone
whitespace character is kept verbatim, a longer run becomes one space. -/
def collapseWsF : Nat → List Char → List Char
  | _, [] => []
  | 0, l => l
  | fuel + 1, c :: rest =>
    if isJsSpace c then
      if (rest.takeWhile isJsSpace).isEmpty then c :: collapseWsF fuel rest
      else ' ' :: collapseWsF fuel (rest.dropWhile isJsSpace)
    else c :: collapseWsF fuel rest

/-- Models String.prototype.trim: drop whitespace from both ends. -/
def trimWs (l : List Char) : List Char :=
  ((l.dropWhile isJsSpace).reverse.dropWhile isJsSpace).reverse

/-- Models the strip of the send-bsv skill: remove the matched command spans,
collapse whitespace runs, trim the ends. -/
def stripSend (l : List Char) : List Char :=
  trimWs (collapseWsF (stripSendsF l.length l).length (stripSendsF l.length l))

/-- Skill parse on a String, returning amount and address string pairs. -/
def parseSendStr (s : String) : List (Nat × String) :=
  (parseSend s.toList).map (fun m => (m.1, String.mk m.2))

/-- Skill strip on a String. -/
def stripSendStr (s : String) : String := String.mk (stripSend s.toList)

/-! ## MessageIngestor and Orchestrator (the loop of the current revision) -/

/-- A conversation turn role. -/
inductive Role where
  | them : Role
  | me : Role
deriving DecidableEq

/-- A conversation turn as stored in state.conversations. -/
structure Turn where
  role : Role
  text : String
deriving DecidableEq

/-- An element of newMessages: txid, sender, amount paid to the agent, the
message type (first decoded field, none when absent or empty, mirroring the
JavaScript falsy test), and the remaining data fields. -/
structure MsgIn where
  txid : Nat
  sender : Option String
  amount : Nat
  mtype : Option String
  mdata : List String
deriving DecidableEq

/-- The crash-recoverable agent state (state.json). Conversations are keyed by
sender address, none standing for the unknown-sender key. -/
structure AgentState where
  processedTxids : List Nat
  conversations : Option String → List Turn
  inbox : List MsgIn
  actionsCount : Nat
  loopCount : Nat
  lastBalance : Nat

/-- The result of fetching and decoding one transaction during ingestion:
err models a thrown fetch (caught and logged), ok carries the parseOpReturn
result, the recovered sender, and the amount paid to the agent. -/
inductive TxFetch where
  | err : TxFetch
  | ok : Option (List String) → Option String → Nat → TxFetch

/-- The message type of decoded parts: opReturn[0] with the JavaScript falsy
fallback, so a missing or empty first field gives none (unknown). -/
def msgTypeOf (parts : List String) : Option String :=
  match parts.head? with
  | none => none
  | some t => if t = "" then none else some t

/-- Models one iteration of the ingestion loop: a thrown fetch changes
nothing; a decoded payload from a sender other than the agent becomes a new
message and is not marked processed; every other transaction is appended to
processedTxids immediately. -/
def ingestTx (myAddr : String) (acc : AgentState × List MsgIn)
    (t : Nat × TxFetch) : AgentState × List MsgIn :=
  match t.2 with
  | .err => acc
  | .ok oret sender amount =>
    match oret with
    | some parts =>
      if sender ≠ some myAddr then
        (acc.1, acc.2 ++ [{ txid := t.1, sender := sender, amount := amount
                          , mtype := msgTypeOf parts, mdata := parts.tail }])
      else ({ acc.1 with processedTxids := acc.1.processedTxids ++ [t.1] }, acc.2)
    | none => ({ acc.1 with processedTxids := acc.1.processedTxids ++ [t.1] }, acc.2)

/-- Models state.processedTxids trimming: once above 1000 entries keep the
most recent 500. -/
def trimProcessed (l : List Nat) : List Nat :=
  if l.length > 1000 then l.drop (l.length - 500) else l

/-- Models per-sender history trimming after a reply: above 20 entries keep
the most recent 20. -/
def trim20 (l : List Turn) : List Turn :=
  if l.length > 20 then l.drop (l.length - 20) else l

/-- Models state.inbox trimming: above 100 entries keep the most recent 50. -/
def trimInbox (l : List MsgIn) : List MsgIn :=
  if l.length > 100 then l.drop (l.length - 50) else l

/-- The text of a message as the reply pipeline computes it: for a reply type
the first data field is the referenced txid and is skipped. -/
def msgText (m : MsgIn) : String :=
  if m.mtype = some "reply" then String.intercalate " " (m.mdata.drop 1)
  else String.intercalate " " m.mdata

/-- A transaction attempt made by the reply pipeline: either the OP_RETURN
reply (with its recipient and the payment output value, 1000 base plus
embedded extra sats when a recipient exists), or a separate plain transfer
made by the send-bsv skill execute for a third-party destination. -/
inductive Broadcast where
  | reply : Nat → Option String → Nat → Broadcast
  | transfer : Nat → String → Broadcast
deriving DecidableEq

/-- Models the reply pipeline for one decoded message (the body of the
for-loop over newMessages). Only msg and reply types are handled. When the
LLM produced text and the cycle balance exceeds 1000, the skill actions are
parsed from the response: same-sender transfers accumulate into extraSats
embedded in the reply payment, third-party transfers run the skill execute
(a separate sendBsv transaction, unless the destination is the agent
itself), and the response is stripped. The OP_RETURN reply is then attempted;
only on success is the txid marked processed, the action logged, and both
turns appended to the sender history (trimmed to 20). On failure the state
is unchanged. Without a response or with balance at most 1000, only the
incoming turn is recorded and nothing is broadcast. -/
def processMsg (myAddr : String) (balance : Nat) (response : Option String)
    (replyOk : Bool) (st : AgentState) (m : MsgIn) : AgentState × List Broadcast :=
  if m.mtype = some "msg" ∨ m.mtype = some "reply" then
    let text := msgText m
    match response with
    | some resp =>
      if balance > 1000 then
        let actions := parseSendStr resp
        let extraSats := ((actions.filter (fun a => m.sender = some a.2)).map (fun a => a.1)).sum
        let transfers := (actions.filter (fun a => m.sender ≠ some a.2)).filterMap
          (fun a => if a.2 = myAddr then none else some (Broadcast.transfer a.1 a.2))
        let stripped := stripSendStr resp
        let reply1 :=
          if extraSats > 0 then
            if stripped ≠ "" then
              stripped ++ " [sent " ++ toString extraSats ++ " sats ✓]"
            else "[sent " ++ toString extraSats ++ " sats ✓]"
          else stripped
        let reply := reply1.take 1000
        let payment := if m.sender.isSome then 1000 + extraSats else 0
        let attempt := Broadcast.reply m.txid m.sender payment
        if replyOk then
          ({ st with
             processedTxids := st.processedTxids ++ [m.txid]
           , actionsCount := st.actionsCount + 1
           , conversations := fun k =>
               if k = m.sender then
                 trim20 (st.conversations m.sender ++
                         [{ role := Role.them, text := text }, { role := Role.me, text := reply }])
               else st.conversations k },
           transfers ++ [attempt])
        else (st, transfers ++ [attempt])
      else
        ({ st with conversations := fun k =>
             if k = m.sender then st.conversations m.sender ++ [{ role := Role.them, text := text }]
             else st.conversations k }, [])
    | none =>
      ({ st with conversations := fun k =>
           if k = m.sender then st.conversations m.sender ++ [{ role := Role.them, text := text }]
           else st.conversations k }, [])
  else (st, [])

/-- The per-cycle environment: the balance read at the start of the cycle,
the txids observed in the UTXO listings, the fetch outcome per txid, and the
LLM response and reply-broadcast outcome per message txid. -/
structure CycleEnv where
  balance : Nat
  observedTxids : List Nat
  fetch : Nat → TxFetch
  response : Nat → Option String
  replyOk : Nat → Bool

/-- Models one iteration of the main loop: bump the loop counter; on zero
balance stop; otherwise ingest the observed txids not yet processed, trim the
processed list, run the reply pipeline over the new messages in discovery
order, append them to the inbox (trimmed), and record the balance. Returns
the new state and all transaction attempts of the cycle. -/
def loopCycle (myAddr : String) (env : CycleEnv) (st0 : AgentState) :
    AgentState × List Broadcast :=
  let st := { st0 with loopCount := st0.loopCount + 1 }
  if env.balance = 0 then (st, [])
  else
    let newTxids := (env.observedTxids.dedup).filter
      (fun t => !(st.processedTxids.contains t))
    let ingested := newTxids.foldl (fun acc t => ingestTx myAddr acc (t, env.fetch t)) (st, [])
    let st1 := { ingested.1 with processedTxids := trimProcessed ingested.1.processedTxids }
    let replied := ingested.2.foldl
      (fun (acc : AgentState × List Broadcast) m =>
        let r := processMsg myAddr env.balance (env.response m.txid) (env.replyOk m.txid) acc.1 m
        (r.1, acc.2 ++ r.2))
      (st1, ([] : List Broadcast))
    ({ replied.1 with
       inbox := trimInbox (replied.1.inbox ++ ingested.2)
     , lastBalance := env.balance }, replied.2)

/-- Run several cycles, threading the state. -/
def runCycles (myAddr : String) (envs : List CycleEnv) (st : AgentState) : AgentState :=
  envs.foldl (fun s e => (loopCycle myAddr e s).1) st

/-- The fresh state created by loadState when no state file exists. -/
def initialState : AgentState :=
  { processedTxids := []
  , conversations := fun _ => []
  , inbox := []
  , actionsCount := 0
  , loopCount := 0
  , lastBalance := 0 }

/-! ## Lemmas about the selection loop -/

theorem selectGo_leading (t : Nat) (l : List Nat) : ∀ acc, selectGo t l acc <+: l := by
  induction l with
  | nil => intro acc; simp [selectGo]
  | cons u rest ih =>
    intro acc
    by_cases h : acc + u > t
    · simp only [selectGo, if_pos h]
      exact List.cons_prefix_cons.mpr ⟨rfl, List.nil_prefix⟩
    · simp only [selectGo, if_neg h]
      exact List.cons_prefix_cons.mpr ⟨rfl, ih (acc + u)⟩

theorem selectGo_stop (t : Nat) (l : List Nat) :
    ∀ acc, (selectGo t l acc).length < l.length → acc + (selectGo t l acc).sum > t := by
  induction l with
  | nil => intro acc h; simp [selectGo] at h
  | cons u rest ih =>
    intro acc h
    by_cases hc : acc + u > t
    · simp only [selectGo, if_pos hc, List.sum_cons, List.sum_nil]
      omega
    · simp only [selectGo, if_neg hc, List.sum_cons] at h ⊢
      have := ih (acc + u) (by simpa using Nat.lt_of_succ_lt_succ (by simpa using h))
      omega

theorem selectGo_min (t : Nat) (l : List Nat) :
    ∀ acc, acc ≤ t → ∀ p, p <+: selectGo t l acc → p ≠ selectGo t l acc →
      acc + p.sum ≤ t := by
  induction l with
  | nil =>
    intro acc hacc p hp hne
    simp only [selectGo] at hp hne
    rcases List.prefix_nil.mp hp with rfl
    exact absurd rfl hne
  | cons u rest ih =>
    intro acc hacc p hp hne
    by_cases hc : acc + u > t
    · simp only [selectGo, if_pos hc] at hp hne
      rcases p with _ | ⟨b, p'⟩
      · simpa using hacc
      · obtain ⟨rfl, hp'⟩ := List.cons_prefix_cons.mp hp
        rcases List.prefix_nil.mp hp' with rfl
        exact absurd rfl hne
    · simp only [selectGo, if_neg hc] at hp hne
      rcases p with _ | ⟨b, p'⟩
      · simpa using hacc
      · obtain ⟨rfl, hp'⟩ := List.cons_prefix_cons.mp hp
        have hne' : p' ≠ selectGo t rest (acc + b) := fun h => hne (by rw [h])
        have := ih (acc + b) (by omega) p' hp' hne'
        simp only [List.sum_cons]
        omega

/-- C3: input selection walks the UTXO list in gateway order, accumulating
values; it is a prefix of the list, every proper prefix of the selection has
sum at most target + 5000 (so it stops as soon as the sum exceeds the
threshold), stopping before the end forces the selected sum above the
threshold, exhausting the list selects everything, and on values
[3000, 4000, 2000] with target 1000 exactly the first two are selected with
sum 7000. -/
theorem c3_selection_policy (utxos : List Nat) (target : Nat) :
    selectUtxos utxos (target + 5000) <+: utxos ∧
    (∀ p, p <+: selectUtxos utxos (target + 5000) → p ≠ selectUtxos utxos (target + 5000) →
      p.sum ≤ target + 5000) ∧
    ((selectUtxos utxos (target + 5000)).length < utxos.length →
      (selectUtxos utxos (target + 5000)).sum > target + 5000) ∧
    ((selectUtxos utxos (target + 5000)).length = utxos.length →
      selectUtxos utxos (target + 5000) = utxos) ∧
    selectUtxos [3000, 4000, 2000] (1000 + 5000) = [3000, 4000] ∧
    (selectUtxos [3000, 4000, 2000] (1000 + 5000)).sum = 7000 := by
  refine ⟨selectGo_leading _ _ 0, ?_, ?_, ?_, by decide, by decide⟩
  · intro p hp hne
    simpa using selectGo_min (target + 5000) utxos 0 (by omega) p hp hne
  · intro h
    simpa using selectGo_stop (target + 5000) utxos 0 h
  · intro h
    exact (selectGo_leading (target + 5000) utxos 0).eq_of_length h

theorem c3_selection_witness :
    ([3000] : List Nat).sum ≤ 1000 + 5000 ∧
    (selectUtxos [3000, 4000, 2000] (1000 + 5000)).sum > 1000 + 5000 :=
  ⟨(c3_selection_policy [3000, 4000, 2000] 1000).2.1 [3000] (by decide) (by decide),
   (c3_selection_policy [3000, 4000, 2000] 1000).2.2.1 (by decide)⟩

/-- C1: when the selected input total minus the payment and the estimated fee
is negative, both builders fail with the Insufficient funds error and compute
no signature; a successful build never has a negative change output. -/
theorem c1_no_negative_change (utxos dataLens : List Nat) (recipient : Bool)
    (extraSats feeNum feeDen amountSats : Nat) (hne : utxos ≠ []) :
    (((selectUtxos utxos ((if recipient then 1000 + extraSats else 0) + 5000)).sum : Int)
        - (if recipient then 1000 + extraSats else 0)
        - estFee (150 + dataLens.sum + 34 * (if recipient then 2 else 1)) feeNum feeDen < 0 →
      sendOpReturnTx utxos dataLens recipient extraSats feeNum feeDen = .error "Insufficient funds" ∧
      sigsOf (sendOpReturnTx utxos dataLens recipient extraSats feeNum feeDen) = 0) ∧
    (∀ b, sendOpReturnTx utxos dataLens recipient extraSats feeNum feeDen = .ok b →
      0 ≤ b.changeOut) ∧
    (((selectUtxos utxos (amountSats + 5000)).sum : Int) - amountSats
        - estFee (150 + 34 * 2) feeNum feeDen < 0 →
      sendBsvTx utxos amountSats feeNum feeDen = .error "Insufficient funds" ∧
      sigsOf (sendBsvTx utxos amountSats feeNum feeDen) = 0) ∧
    (∀ b, sendBsvTx utxos amountSats feeNum feeDen = .ok b → 0 ≤ b.changeOut) := by
  have hns : utxos.isEmpty = false := by
    cases utxos with
    | nil => exact absurd rfl hne
    | cons a l => rfl
  refine ⟨?_, ?_, ?_, ?_⟩
  · intro hneg
    simp only [sendOpReturnTx, hns, Bool.false_eq_true, if_false, if_pos hneg]
    refine ⟨by simp, by simp [sigsOf]⟩
  · intro b hb
    by_cases hrec : recipient
    · simp only [sendOpReturnTx, hns, Bool.false_eq_true, if_false, hrec, if_true] at hb
      split at hb
      · simp at hb
      · next h =>
        cases hb
        simpa using Int.not_lt.mp h
    · simp only [sendOpReturnTx, hns, Bool.false_eq_true, if_false, hrec] at hb
      split at hb
      · simp at hb
      · next h =>
        cases hb
        simpa using Int.not_lt.mp h
  · intro hneg
    simp only [sendBsvTx, hns, Bool.false_eq_true, if_false, if_pos hneg]
    refine ⟨by simp, by simp [sigsOf]⟩
  · intro b hb
    simp only [sendBsvTx, hns, Bool.false_eq_true, if_false] at hb
    split at hb
    · simp at hb
    · next h =>
      cases hb
      simpa using Int.not_lt.mp h

theorem c1_no_negative_change_witness :
    sendOpReturnTx [100] [] true 0 1 2 = .error "Insufficient funds" ∧
    sigsOf (sendOpReturnTx [100] [] true 0 1 2) = 0 ∧
    sendBsvTx [100] 1000 1 2 = .error "Insufficient funds" := by
  obtain ⟨h1, _, h3, _⟩ := c1_no_negative_change [100] [] true 0 1 2 1000 (by decide)
  exact ⟨(h1 (by decide)).1, (h1 (by decide)).2, (h3 (by decide)).1⟩

/-! ## Lemmas about the push-data codec -/

theorem partsLoopF_mono : ∀ (f1 : Nat) (l : Bytes) (f2 : Nat), l.length ≤ f1 → l.length ≤ f2 →
    partsLoopF f1 l = partsLoopF f2 l := by
  intro f1
  induction f1 with
  | zero =>
    intro l f2 h1 _
    have hl : l = [] := List.length_eq_zero.mp (Nat.le_zero.mp h1)
    subst hl
    cases f2 <;> rfl
  | succ g1 ih =>
    intro l f2 h1 h2
    cases l with
    | nil => cases f2 <;> rfl
    | cons len rest =>
      have hr1 : rest.length ≤ g1 := by simpa using h1
      cases f2 with
      | zero => simp at h2
      | succ g2 =>
        have hr2 : rest.length ≤ g2 := by simpa using h2
        simp only [partsLoopF]
        by_cases h0 : len = 0
        · simp only [if_pos h0]
          exact ih rest g2 hr1 hr2
        · simp only [if_neg h0]
          by_cases h76 : len = 76
          · simp only [if_pos h76]
            cases rest with
            | nil => rfl
            | cons l2 r2 =>
              have hq1 : r2.length ≤ g1 := by simp at hr1; omega
              have hq2 : r2.length ≤ g2 := by simp at hr2; omega
              by_cases hl2 : l2 > r2.length
              · simp only [if_pos hl2]
              · simp only [if_neg hl2]
                rw [ih (r2.drop l2) g2 (by simp; omega) (by simp; omega)]
          · simp only [if_neg h76]
            by_cases h77 : len = 77
            · simp only [if_pos h77]
              cases rest with
              | nil => rfl
              | cons a rest2 =>
                cases rest2 with
                | nil => rfl
                | cons bb r2 =>
                  have hq1 : r2.length ≤ g1 := by simp at hr1; omega
                  have hq2 : r2.length ≤ g2 := by simp at hr2; omega
                  by_cases hab : a + 256 * bb > r2.length
                  · simp only [if_pos hab]
                  · simp only [if_neg hab]
                    rw [ih (r2.drop (a + 256 * bb)) g2 (by simp; omega) (by simp; omega)]
            · simp only [if_neg h77]
              by_cases hlen : len > rest.length
              · simp only [if_pos hlen]
              · simp only [if_neg hlen]
                rw [ih (rest.drop len) g2 (by simp; omega) (by simp; omega)]

theorem partsLoopF_cons0 (fuel : Nat) (rest : Bytes) :
    partsLoopF (fuel + 1) (0 :: rest) = partsLoopF fuel rest := rfl

theorem partsLoopF_cons76 (fuel l2 : Nat) (r2 : Bytes) :
    partsLoopF (fuel + 1) (76 :: l2 :: r2) =
    if l2 > r2.length then some []
    else (partsLoopF fuel (r2.drop l2)).map (fun tl => r2.take l2 :: tl) := rfl

theorem partsLoopF_cons77 (fuel a bb : Nat) (r2 : Bytes) :
    partsLoopF (fuel + 1) (77 :: a :: bb :: r2) =
    if a + 256 * bb > r2.length then some []
    else (partsLoopF fuel (r2.drop (a + 256 * bb))).map
           (fun tl => r2.take (a + 256 * bb) :: tl) := rfl

theorem partsLoopF_cons_direct (fuel len : Nat) (rest : Bytes)
    (h0 : len ≠ 0) (h76 : len ≠ 76) (h77 : len ≠ 77) :
    partsLoopF (fuel + 1) (len :: rest) =
    if len > rest.length then some []
    else (partsLoopF fuel (rest.drop len)).map (fun tl => rest.take len :: tl) := by
  simp only [partsLoopF, if_neg h0, if_neg h76, if_neg h77]

theorem partsLoop_push (f r : Bytes) (h1 : f ≠ []) (h2 : f.length ≤ 65535) :
    partsLoopF (pushData f ++ r).length (pushData f ++ r) =
    (partsLoopF r.length r).map (fun tl => f :: tl) := by
  have hlen0 : f.length ≠ 0 := by simpa [List.length_eq_zero] using h1
  have hnb : ¬ f.length > (f ++ r).length := by
    simp only [List.length_append]; omega
  by_cases hA : f.length ≤ 75
  · have hpd : pushData f ++ r = f.length :: (f ++ r) := by
      simp [pushData, hlen0, hA]
    rw [hpd, List.length_cons,
      partsLoopF_cons_direct (f ++ r).length f.length (f ++ r) hlen0 (by omega) (by omega),
      if_neg hnb, List.take_left, List.drop_left,
      partsLoopF_mono (f ++ r).length r r.length (by simp only [List.length_append]; omega) (le_refl _)]
  · by_cases hB : f.length ≤ 255
    · have hpd : pushData f ++ r = 76 :: f.length :: (f ++ r) := by
        simp [pushData, hlen0, hA, hB]
      rw [hpd, List.length_cons, List.length_cons, partsLoopF_cons76,
        if_neg hnb, List.take_left, List.drop_left,
        partsLoopF_mono ((f ++ r).length + 1) r r.length (by simp only [List.length_append]; omega) (le_refl _)]
    · have hpd : pushData f ++ r =
          77 :: (f.length % 256) :: (f.length / 256) :: (f ++ r) := by
        simp [pushData, hlen0, hA, hB, h2]
      rw [hpd, List.length_cons, List.length_cons, List.length_cons, partsLoopF_cons77,
        Nat.mod_add_div, if_neg hnb, List.take_left, List.drop_left,
        partsLoopF_mono ((f ++ r).length + 2) r r.length (by simp only [List.length_append]; omega) (le_refl _)]

theorem partsLoop_pushAll (fields : List Bytes) (junk : Bytes)
    (hv : ∀ f ∈ fields, f ≠ [] ∧ f.length ≤ 65535) :
    partsLoopF (pushAll fields ++ junk).length (pushAll fields ++ junk) =
    (partsLoopF junk.length junk).map (fun tl => fields ++ tl) := by
  induction fields with
  | nil =>
    simp only [pushAll, List.nil_append]
    cases partsLoopF junk.length junk <;> simp
  | cons f fs ih =>
    have hf := hv f (List.mem_cons_self f fs)
    have hfs : ∀ g ∈ fs, g ≠ [] ∧ g.length ≤ 65535 :=
      fun g hg => hv g (List.mem_cons_of_mem f hg)
    have hsp : pushAll (f :: fs) ++ junk = pushData f ++ (pushAll fs ++ junk) := by
      simp [pushAll]
    rw [hsp, partsLoop_push f (pushAll fs ++ junk) hf.1 hf.2, ih hfs]
    cases partsLoopF junk.length junk <;> simp

theorem decodeScript_encodeScript (fields : List Bytes)
    (hv : ∀ f ∈ fields, f ≠ [] ∧ f.length ≤ 65535) :
    decodeScript (encodeScript fields) = some fields := by
  have ha : afterOpReturn (encodeScript fields) = pushAll fields := by
    simp [encodeScript, afterOpReturn]
  simp only [decodeScript, ha]
  have h := partsLoop_pushAll fields [] hv
  simpa [partsLoopF] using h

/-- C2 (amended): for a sequence of nonempty byte-string fields, each at most
65535 bytes, decoding the encoded script returns exactly the original fields.
(The nonemptiness restriction is forced: an empty field is encoded as OP_0
and dropped by the decoder, see the counterexample.) -/
theorem c2_roundtrip_nonempty (fields : List Bytes)
    (hv : ∀ f ∈ fields, f ≠ [] ∧ f.length ≤ 65535) :
    decodeScript (encodeScript fields) = some fields :=
  decodeScript_encodeScript fields hv

/-- C2 counterexample: the single empty field is a byte string of length at
most 65535, yet encoding then decoding loses it, so the round trip fails as
originally stated. -/
theorem c2_roundtrip_counterexample :
    ([] : Bytes).length ≤ 65535 ∧
    decodeScript (encodeScript [[]]) = some [] ∧
    decodeScript (encodeScript [[]]) ≠ some [[]] := by
  decide

/-- C2 witness: scenario A, the fields MA1, msg, hello in bytes. -/
theorem c2_roundtrip_witness :
    decodeScript (encodeScript [[77, 65, 49], [109, 115, 103], [104, 101, 108, 108, 111]]) =
      some [[77, 65, 49], [109, 115, 103], [104, 101, 108, 108, 111]] :=
  c2_roundtrip_nonempty _ (by decide)

/-- C4: an output is accepted as a protocol message exactly when its decoded
part sequence starts with the protocol prefix, byte for byte; a first field
XX1 under prefix MA1 decodes to none; and an ingested transaction without a
decoded payload produces no inbound message and is marked processed at once. -/
theorem c4_prefix_exact (pfx s : Bytes) (fs : List Bytes) (myAddr : String)
    (st : AgentState) (msgs : List MsgIn) (txid : Nat) (sender : Option String) (amount : Nat) :
    (decodeOutput pfx s = some fs ↔ decodeScript s = some (pfx :: fs)) ∧
    decodeOutput [77, 65, 49]
      (encodeScript [[88, 88, 49], [109, 115, 103], [104, 101, 108, 108, 111]]) = none ∧
    (ingestTx myAddr (st, msgs) (txid, TxFetch.ok none sender amount)).2 = msgs ∧
    (ingestTx myAddr (st, msgs) (txid, TxFetch.ok none sender amount)).1.processedTxids =
      st.processedTxids ++ [txid] := by
  refine ⟨?_, by decide, rfl, rfl⟩
  unfold decodeOutput
  cases h : decodeScript s with
  | none => simp
  | some parts =>
    cases parts with
    | nil => simp
    | cons p0 rp =>
      by_cases hp : p0 = pfx
      · subst hp; simp
      · simp [List.cons.injEq, hp]

/-- C4 witness: a concrete prefixed script is accepted with the payload
fields returned. -/
theorem c4_prefix_witness :
    decodeOutput [77, 65, 49] (encodeScript [[77, 65, 49], [104, 105]]) = some [[104, 105]] :=
  (c4_prefix_exact [77, 65, 49] (encodeScript [[77, 65, 49], [104, 105]]) [[104, 105]]
    "" initialState [] 0 none 0).1.mpr (by decide)

/-- C5 counterexample: a data-carrier output whose final declared push length
runs past the end of the script does not decode to null when the complete
fields before the truncation point form a prefix-matched message; the decoder
returns that partial field sequence instead. -/
theorem c5_truncated_counterexample :
    decodeOutput [77, 65, 49]
      (encodeScript [[77, 65, 49], [109, 115, 103]] ++ [5, 104, 105]) ≠ none ∧
    decodeOutput [77, 65, 49]
      (encodeScript [[77, 65, 49], [109, 115, 103]] ++ [5, 104, 105]) = some [[109, 115, 103]] := by
  decide

/-- C5 (amended): a truncated trailing push never throws and never aborts the
scan: the truncated push is dropped, decoding returns exactly the fields
completely parsed before the truncation point (so the output decodes to null
only when those fields are not a prefix-matched message), and an output that
decodes to null lets parseOpReturn continue with the remaining outputs of the
transaction. -/
theorem c5_truncated_kept (pfx : Bytes) (fields : List Bytes) (len : Nat) (tl : Bytes)
    (hv : ∀ f ∈ fields, f ≠ [] ∧ f.length ≤ 65535)
    (h0 : len ≠ 0) (h76 : len ≠ 76) (h77 : len ≠ 77) (htr : len > tl.length) :
    decodeScript (encodeScript fields ++ (len :: tl)) = some fields ∧
    (∀ s rest, decodeOutput pfx s = none →
      parseOpReturn pfx ({ asmHasOpReturn := true, hexScript := some s } :: rest) =
        parseOpReturn pfx rest) := by
  constructor
  · have ha : afterOpReturn (encodeScript fields ++ (len :: tl)) =
        pushAll fields ++ (len :: tl) := by
      simp [encodeScript, afterOpReturn]
    simp only [decodeScript, ha]
    rw [partsLoop_pushAll fields (len :: tl) hv]
    have hstop : partsLoopF (len :: tl).length (len :: tl) = some [] := by
      rw [List.length_cons, partsLoopF_cons_direct tl.length len tl h0 h76 h77, if_pos htr]
    rw [hstop]
    simp
  · intro s rest hd
    simp [parseOpReturn, hd]

/-- C5 witness: the amended statement at the concrete truncated script. -/
theorem c5_truncated_witness :
    decodeScript (encodeScript [[77, 65, 49], [104, 105]] ++ [9, 1, 2]) =
      some [[77, 65, 49], [104, 105]] :=
  (c5_truncated_kept [77, 65, 49] [[77, 65, 49], [104, 105]] 9 [1, 2]
    (by decide) (by decide) (by decide) (by decide) (by decide)).1

/-! ## Lemmas about the reply pipeline -/

theorem strMk_toList (s : String) : String.mk s.toList = s := by
  cases s
  rfl

theorem processMsg_processed_cases (myAddr : String) (balance : Nat) (resp : Option String)
    (replyOk : Bool) (st : AgentState) (m : MsgIn) :
    (processMsg myAddr balance resp replyOk st m).1.processedTxids = st.processedTxids ∨
    (replyOk = true ∧
     (processMsg myAddr balance resp replyOk st m).1.processedTxids =
       st.processedTxids ++ [m.txid]) := by
  unfold processMsg
  split
  · cases resp with
    | none => left; rfl
    | some r =>
      by_cases hb : balance > 1000
      · simp only [if_pos hb]
        cases replyOk with
        | false => left; simp
        | true => right; refine ⟨rfl, ?_⟩; simp
      · left
        simp [if_neg hb]
  · left; rfl

theorem processMsg_no_broadcast_low (myAddr : String) (balance : Nat) (resp : Option String)
    (replyOk : Bool) (st : AgentState) (m : MsgIn) (hb : ¬ balance > 1000) :
    (processMsg myAddr balance resp replyOk st m).2 = [] := by
  unfold processMsg
  split
  · cases resp with
    | none => rfl
    | some r => simp [if_neg hb]
  · rfl

theorem processMsg_no_broadcast_none (myAddr : String) (balance : Nat)
    (replyOk : Bool) (st : AgentState) (m : MsgIn) :
    (processMsg myAddr balance none replyOk st m).2 = [] := by
  unfold processMsg
  split <;> rfl

theorem replyFold_no_broadcast_low (myAddr : String) (balance : Nat)
    (respf : Nat → Option String) (okf : Nat → Bool) (hb : ¬ balance > 1000) :
    ∀ (msgs : List MsgIn) (acc : AgentState × List Broadcast),
      (msgs.foldl
        (fun (acc : AgentState × List Broadcast) m =>
          let r := processMsg myAddr balance (respf m.txid) (okf m.txid) acc.1 m
          (r.1, acc.2 ++ r.2)) acc).2 = acc.2 := by
  intro msgs
  induction msgs with
  | nil => intro acc; rfl
  | cons m rest ih =>
    intro acc
    simp only [List.foldl_cons]
    rw [ih]
    simp [processMsg_no_broadcast_low myAddr balance (respf m.txid) (okf m.txid) acc.1 m hb]

/-- C6: a transaction with no decoded payload (or one the agent sent itself)
is appended to processedTxids immediately during ingestion; a decoded message
from another sender is queued as an inbound message and not marked processed;
a reply failure leaves processedTxids unchanged, so the message is retried;
and the reply pipeline changes processedTxids only by appending the message
txid after a successful broadcast. -/
theorem c6_deferred_processing (myAddr : String) (st : AgentState) (msgs : List MsgIn)
    (txid : Nat) (sender : Option String) (amount : Nat) (parts : List String)
    (balance : Nat) (resp : Option String) (replyOk : Bool) (m : MsgIn) :
    (ingestTx myAddr (st, msgs) (txid, TxFetch.ok none sender amount) =
      ({ st with processedTxids := st.processedTxids ++ [txid] }, msgs)) ∧
    (sender = some myAddr →
      ingestTx myAddr (st, msgs) (txid, TxFetch.ok (some parts) sender amount) =
        ({ st with processedTxids := st.processedTxids ++ [txid] }, msgs)) ∧
    (sender ≠ some myAddr →
      ingestTx myAddr (st, msgs) (txid, TxFetch.ok (some parts) sender amount) =
        (st, msgs ++ [{ txid := txid, sender := sender, amount := amount
                      , mtype := msgTypeOf parts, mdata := parts.tail }])) ∧
    ((processMsg myAddr balance resp false st m).1.processedTxids = st.processedTxids) ∧
    ((processMsg myAddr balance resp replyOk st m).1.processedTxids ≠ st.processedTxids →
      replyOk = true ∧
      (processMsg myAddr balance resp replyOk st m).1.processedTxids =
        st.processedTxids ++ [m.txid]) := by
  refine ⟨rfl, ?_, ?_, ?_, ?_⟩
  · intro h
    simp [ingestTx, h]
  · intro h
    simp [ingestTx, h]
  · rcases processMsg_processed_cases myAddr balance resp false st m with h | ⟨hfalse, _⟩
    · exact h
    · exact absurd hfalse (by simp)
  · intro hne
    rcases processMsg_processed_cases myAddr balance resp replyOk st m with h | h
    · exact absurd h hne
    · exact h

/-- C6 witness: a concrete decoded message from another sender is queued
without being marked processed. -/
theorem c6_deferred_processing_witness :
    ingestTx "A" (initialState, []) (1, TxFetch.ok (some ["msg", "hi"]) (some "B") 0) =
      (initialState, [{ txid := 1, sender := some "B", amount := 0
                      , mtype := msgTypeOf ["msg", "hi"], mdata := ["msg", "hi"].tail }]) :=
  (c6_deferred_processing "A" initialState [] 1 (some "B") 0 ["msg", "hi"]
    0 none false ⟨0, none, 0, none, []⟩).2.2.1 (by decide)

/-- C10: the reply pipeline attempts no transaction for a decoded message
when the LLM returned nothing or the cycle-start balance is at most 1000: it
only appends the incoming turn to the sender history; any attempted
transaction implies a response was present and the balance exceeded 1000; and
a whole cycle whose observed balance is at most 1000 broadcasts nothing. -/
theorem c10_reply_gating (myAddr : String) (balance : Nat) (resp : Option String)
    (replyOk : Bool) (st : AgentState) (m : MsgIn) (env : CycleEnv) :
    ((m.mtype = some "msg" ∨ m.mtype = some "reply") → (resp = none ∨ ¬ balance > 1000) →
      (processMsg myAddr balance resp replyOk st m).2 = [] ∧
      (processMsg myAddr balance resp replyOk st m).1.processedTxids = st.processedTxids ∧
      (processMsg myAddr balance resp replyOk st m).1.conversations m.sender =
        st.conversations m.sender ++ [{ role := Role.them, text := msgText m }] ∧
      (∀ k, k ≠ m.sender →
        (processMsg myAddr balance resp replyOk st m).1.conversations k =
          st.conversations k)) ∧
    ((processMsg myAddr balance resp replyOk st m).2 ≠ [] →
      resp ≠ none ∧ balance > 1000) ∧
    (¬ env.balance > 1000 → (loopCycle myAddr env st).2 = []) := by
  refine ⟨?_, ?_, ?_⟩
  · intro htype hfail
    have hbody : processMsg myAddr balance resp replyOk st m =
        ({ st with conversations := fun k =>
             if k = m.sender then st.conversations m.sender ++ [{ role := Role.them, text := msgText m }]
             else st.conversations k }, []) := by
      unfold processMsg
      rw [if_pos htype]
      rcases hfail with rfl | hb
      · rfl
      · cases resp with
        | none => rfl
        | some r => simp [if_neg hb]
    rw [hbody]
    refine ⟨rfl, rfl, by simp, ?_⟩
    intro k hk
    simp [hk]
  · intro hne
    constructor
    · intro hnone
      subst hnone
      exact hne (processMsg_no_broadcast_none myAddr balance replyOk st m)
    · by_contra hb
      exact hne (processMsg_no_broadcast_low myAddr balance resp replyOk st m hb)
  · intro hb
    unfold loopCycle
    by_cases h0 : env.balance = 0
    · simp only [if_pos h0]
    · simp only [if_neg h0]
      exact replyFold_no_broadcast_low myAddr env.balance env.response env.replyOk hb _ _

/-- C10 witness: with no LLM response, a concrete message only records the
incoming turn and nothing is broadcast. -/
theorem c10_reply_gating_witness :
    (processMsg "A" 2000 none false initialState ⟨1, some "B", 0, some "msg", ["hi"]⟩).2 = [] ∧
    (processMsg "A" 2000 none false initialState
      ⟨1, some "B", 0, some "msg", ["hi"]⟩).1.conversations (some "B") =
      initialState.conversations (some "B") ++
        [{ role := Role.them, text := msgText ⟨1, some "B", 0, some "msg", ["hi"]⟩ }] := by
  obtain ⟨h1, h2, h3, _⟩ :=
    (c10_reply_gating "A" 2000 none false initialState ⟨1, some "B", 0, some "msg", ["hi"]⟩
      { balance := 0, observedTxids := [], fetch := fun _ => TxFetch.err
      , response := fun _ => none, replyOk := fun _ => false }).1
      (Or.inl rfl) (Or.inl rfl)
  exact ⟨h1, h3⟩

/-! ## Retention bounds and their violation -/

theorem trimProcessed_le (l : List Nat) : (trimProcessed l).length ≤ 1000 := by
  unfold trimProcessed
  split
  · simp only [List.length_drop]
    omega
  · omega

theorem trim20_le (l : List Turn) : (trim20 l).length ≤ 20 := by
  unfold trim20
  split
  · simp only [List.length_drop]
    omega
  · omega

/-- C7 (amended): at the trim points the caps hold, oldest entries dropped
first: the ingestion-phase trim leaves processedTxids with at most 1000
entries (cutting to the most recent 500 once above 1000), and a successful
reply trims the sender history to at most 20 entries. Turns recorded when no
reply is sent are not trimmed, and txids appended after successful replies
are not re-trimmed within the cycle, so the caps do not hold after arbitrary
cycles (see the counterexample). -/
theorem c7_retention_trims (l : List Nat) (h : List Turn) (myAddr : String)
    (balance : Nat) (resp : String) (st : AgentState) (m : MsgIn) :
    (trimProcessed l).length ≤ 1000 ∧
    (trim20 h).length ≤ 20 ∧
    ((m.mtype = some "msg" ∨ m.mtype = some "reply") → balance > 1000 →
      ((processMsg myAddr balance (some resp) true st m).1.conversations m.sender).length ≤ 20) := by
  refine ⟨trimProcessed_le l, trim20_le h, ?_⟩
  intro htype hb
  have hconv :
      (processMsg myAddr balance (some resp) true st m).1.conversations m.sender =
      trim20 (st.conversations m.sender ++
        [{ role := Role.them, text := msgText m },
         { role := Role.me,
           text := (if (((parseSendStr resp).filter
                        (fun a => decide (m.sender = some a.2))).map (fun a => a.1)).sum > 0 then
                      (if stripSendStr resp ≠ "" then
                         stripSendStr resp ++ " [sent " ++
                           toString ((((parseSendStr resp).filter
                             (fun a => decide (m.sender = some a.2))).map (fun a => a.1)).sum) ++
                           " sats ✓]"
                       else
                         "[sent " ++
                           toString ((((parseSendStr resp).filter
                             (fun a => decide (m.sender = some a.2))).map (fun a => a.1)).sum) ++
                           " sats ✓]")
                    else stripSendStr resp).take 1000 }]) := by
    unfold processMsg
    rw [if_pos htype]
    simp only [if_pos hb]
    simp
  rw [hconv]
  exact trim20_le _

/-- C7 witness: trimming a 25-turn history leaves 20 entries. -/
theorem c7_retention_trims_witness :
    (trimProcessed (List.replicate 1500 0)).length ≤ 1000 ∧
    (trim20 (List.replicate 25 { role := Role.them, text := "x" })).length ≤ 20 := by
  obtain ⟨h1, h2, _⟩ :=
    c7_retention_trims (List.replicate 1500 0)
      (List.replicate 25 { role := Role.them, text := "x" })
      "A" 0 "" initialState ⟨0, none, 0, none, []⟩
  exact ⟨h1, h2⟩

/-- The cycle environment of the C7 counterexample: the same message
transaction is observed every cycle, the LLM is unavailable, so the incoming
turn is recorded each cycle without the message ever being marked processed. -/
def c7Env : CycleEnv :=
  { balance := 2000
  , observedTxids := [1]
  , fetch := fun _ => TxFetch.ok (some ["msg", "hi"]) (some "B") 1500
  , response := fun _ => none
  , replyOk := fun _ => false }

/-- C7 counterexample: after 21 cycles from the initial state the
conversation history of one sender holds 21 entries, exceeding the 20-entry
retention bound, because turns recorded while the LLM is unavailable are
never trimmed. -/
theorem c7_retention_counterexample :
    ((runCycles "A" (List.replicate 21 c7Env) initialState).conversations (some "B")).length = 21 ∧
    21 > 20 := by
  constructor
  · decide
  · decide

/-! ## Action extractor bounds and the same-sender fold -/

theorem parseSend_bounds {l : List Char} {y : Nat × List Char} (hy : y ∈ parseSend l) :
    100 ≤ y.1 ∧ y.1 ≤ 10000 := by
  have := List.of_mem_filter hy
  simpa using this

theorem parseSendStr_bounds {s : String} {x : Nat × String} (hx : x ∈ parseSendStr s) :
    100 ≤ x.1 ∧ x.1 ≤ 10000 := by
  unfold parseSendStr at hx
  rcases List.mem_map.mp hx with ⟨y, hy, rfl⟩
  exact parseSend_bounds hy

/-- C8: the send-bsv parse accepts a pattern match exactly when its amount
lies in the inclusive range 100 to 10000 — out-of-range matches appear in no
returned action and raise no error — and the validation precedes acceptance
for both uses of the actions: every separate transfer attempted by the reply
pipeline carries an in-range amount (same-sender embeds draw from the same
validated action list). -/
theorem c8_bounds_validation (l : List Char) (a : Nat) (addr : List Char) (myAddr : String)
    (balance : Nat) (resp : Option String) (replyOk : Bool) (st : AgentState) (m : MsgIn)
    (amt : Nat) (dest : String) :
    ((a, addr) ∈ parseSend l ↔ ((a, addr) ∈ scanSends l ∧ 100 ≤ a ∧ a ≤ 10000)) ∧
    (Broadcast.transfer amt dest ∈ (processMsg myAddr balance resp replyOk st m).2 →
      100 ≤ amt ∧ amt ≤ 10000) := by
  constructor
  · simp [parseSend, List.mem_filter, and_assoc]
  · intro hmem
    unfold processMsg at hmem
    split at hmem
    · cases resp with
      | none => simp at hmem
      | some r =>
        by_cases hb : balance > 1000
        · simp only [if_pos hb] at hmem
          cases replyOk <;> simp at hmem <;>
            obtain ⟨x, bb, ⟨hx, -⟩, -, rfl, rfl⟩ := hmem <;>
            exact parseSendStr_bounds hx
        · simp only [if_neg hb] at hmem
          simp at hmem
    · simp at hmem

/-- C8 witness: an in-range concrete command is accepted by parse. -/
theorem c8_bounds_validation_witness :
    (500, "1AAAAAAAAAAAAAAAAAAAAAAAAA".toList) ∈
      parseSend "[SEND 500 1AAAAAAAAAAAAAAAAAAAAAAAAA]".toList :=
  (c8_bounds_validation "[SEND 500 1AAAAAAAAAAAAAAAAAAAAAAAAA]".toList 500
    "1AAAAAAAAAAAAAAAAAAAAAAAAA".toList "" 0 none false initialState
    ⟨0, none, 0, none, []⟩ 0 "").1.mpr (by decide)

/-- C9 (amended): for a reply text whose only pattern match is an in-bounds
transfer of 500 sats to the original sender, the extractor yields exactly
that one action, the reply pipeline makes exactly one transaction attempt —
the OP_RETURN reply whose payment output is the 1000 sat base plus the 500
embedded sats — with no separate transfer, and on success the stored
visible reply is the stripped response (matched command spans removed and
whitespace normalized; removal is single-pass, so in contrived texts the
stripped reply can itself still contain command syntax, see the
counterexample) with the transfer receipt appended. -/
theorem c9_same_sender_fold (text senderAddr myAddr : String) (st : AgentState) (m : MsgIn)
    (replyOk : Bool) (balance : Nat)
    (hscan : scanSends text.toList = [(500, senderAddr.toList)])
    (hsender : m.sender = some senderAddr)
    (htype : m.mtype = some "msg" ∨ m.mtype = some "reply")
    (hbal : balance > 1000) :
    parseSendStr text = [(500, senderAddr)] ∧
    (processMsg myAddr balance (some text) replyOk st m).2 =
      [Broadcast.reply m.txid (some senderAddr) (1000 + 500)] ∧
    (processMsg myAddr balance (some text) true st m).1.conversations m.sender =
      trim20 (st.conversations m.sender ++
        [{ role := Role.them, text := msgText m },
         { role := Role.me,
           text := (if stripSendStr text ≠ "" then
                      stripSendStr text ++ " [sent " ++ toString (500 : Nat) ++ " sats ✓]"
                    else "[sent " ++ toString (500 : Nat) ++ " sats ✓]").take 1000 }]) := by
  have hparse : parseSendStr text = [(500, senderAddr)] := by
    unfold parseSendStr parseSend
    rw [hscan]
    simp [strMk_toList]
  refine ⟨hparse, ?_, ?_⟩
  · unfold processMsg
    rw [if_pos htype]
    simp only [if_pos hbal, hparse]
    cases replyOk <;> simp [hsender]
  · unfold processMsg
    rw [if_pos htype]
    simp only [if_pos hbal, hparse]
    simp [hsender]

/-- C9 witness: the amended statement at a concrete reply text. -/
theorem c9_same_sender_witness :
    (processMsg "X" 2000 (some "[SEND 500 1AAAAAAAAAAAAAAAAAAAAAAAAA]") false initialState
      ⟨7, some "1AAAAAAAAAAAAAAAAAAAAAAAAA", 0, some "msg", ["hi"]⟩).2 =
      [Broadcast.reply 7 (some "1AAAAAAAAAAAAAAAAAAAAAAAAA") (1000 + 500)] :=
  (c9_same_sender_fold "[SEND 500 1AAAAAAAAAAAAAAAAAAAAAAAAA]" "1AAAAAAAAAAAAAAAAAAAAAAAAA"
    "X" initialState ⟨7, some "1AAAAAAAAAAAAAAAAAAAAAAAAA", 0, some "msg", ["hi"]⟩
    false 2000 (by decide) rfl (Or.inl rfl) (by decide)).2.1

/-- C9 counterexample: a reply text whose only pattern match is an in-bounds
500 sat transfer to the sender, yet stripping the single-pass match leaves
text that itself parses as a transfer command: the stripped reply still
contains transfer command syntax, refuting the claim as stated. -/
theorem c9_strip_counterexample :
    scanSends
        "[SEND 500 [SEND 500 1AAAAAAAAAAAAAAAAAAAAAAAAA]1AAAAAAAAAAAAAAAAAAAAAAAAA]".toList =
      [(500, "1AAAAAAAAAAAAAAAAAAAAAAAAA".toList)] ∧
    parseSendStr
        (stripSendStr
          "[SEND 500 [SEND 500 1AAAAAAAAAAAAAAAAAAAAAAAAA]1AAAAAAAAAAAAAAAAAAAAAAAAA]") ≠
      [] := by
  constructor
  · decide
  · decide
